import Mathlib

/-!
Flow CLI: contract configuration, account persistence and the confirmation poller.

A shallow embedding of

* `pkg/flowkit/config/contract.go` (`Aliases.ByNetwork`, `Contracts.ByName`,
  `Contracts.AddOrUpdate`, `Contracts.Remove`),
* `internal/accounts/create.go` (`create`, `getAccountCreatedAddressWithPubKey`,
  `saveAccount`, `saveAccountToPrivateConfigFile`, `savePrivateAccount`),

followed by theorems about these definitions.

Go slices are lists.  Where the code mutates a slice through its backing array
(`Contracts.Remove`) the backing array and the current length are kept apart, and
an out-of-range slice expression is a run-time panic, modelled by `none`.
Calls that leave the program (chain gateway, file system, prompts) are answered by
an explicit environment and recorded in a trace.
-/

deriving instance DecidableEq for Except

namespace FlowCli

/-! ## `pkg/flowkit/config/contract.go` -/

/-- Alias of a contract on one network (`type Alias struct`); the `flow.Address`
is kept as its numeric value. -/
structure Alias where
  Network : String
  Address : Nat
deriving DecidableEq, Repr

/-- The Go type `Aliases []Alias`. -/
abbrev Aliases := List Alias

/-- Contract configuration entry (`type Contract struct`). -/
structure Contract where
  Name : String
  Location : String
  Aliases : List Alias
deriving DecidableEq, Repr

/-- The Go type `Contracts []Contract`. -/
abbrev Contracts := List Contract

/-- `Aliases.ByNetwork`: the range loop returns (a copy of) the first alias whose
network equals `network`, and `nil` after the loop. -/
def Aliases.ByNetwork : Aliases → String → Option Alias
  | [], _ => none
  | al :: rest, network =>
    if al.Network = network then some al else Aliases.ByNetwork rest network

/-- `Contract.IsAliased`: `len(c.Aliases) > 0`. -/
def Contract.IsAliased (c : Contract) : Bool :=
  decide (c.Aliases.length > 0)

/-- The error text of `Contracts.ByName`:
`fmt.Errorf("contract named %s does not exist in configuration", name)`. -/
def contractNotFound (name : String) : String :=
  "contract named " ++ name ++ " does not exist in configuration"

/-- `Contracts.ByName`: the range loop returns the first contract whose name equals
`name`; after the loop the not-found error is returned. -/
def Contracts.ByName : Contracts → String → Except String Contract
  | [], name => .error (contractNotFound name)
  | contract :: rest, name =>
    if contract.Name = name then .ok contract else Contracts.ByName rest name

/-- `Contracts.AddOrUpdate`: the first element whose name equals `name` is
overwritten (`(*c)[i] = contract; return`); when the loop finds none the contract
is appended. -/
def Contracts.AddOrUpdate : Contracts → String → Contract → Contracts
  | [], _, contract => [contract]
  | existingContract :: rest, name, contract =>
    if existingContract.Name = name then contract :: rest
    else existingContract :: Contracts.AddOrUpdate rest name contract

/-- The slice `*c` while the loop of `Contracts.Remove` runs: the backing array
(whose length is the length of the slice the `range` clause was evaluated on) and
the current `len(*c)`. -/
structure SliceState where
  arr : List Contract
  len : Nat
deriving DecidableEq, Repr

/-- The statement `*c = append((*c)[0:i], (*c)[i+1:]...)`.
`(*c)[i+1:]` panics when `i+1 > len(*c)`.  Otherwise the append fits the capacity,
so the elements `i+1 .. len-1` are moved one place down inside the backing array,
the element at `len-1` and everything behind it stay where they are, and the
length drops by one. -/
def removeAt (s : SliceState) (i : Nat) : Option SliceState :=
  if i + 1 ≤ s.len then
    some { arr := s.arr.take i ++ (s.arr.take s.len).drop (i + 1) ++ s.arr.drop (s.len - 1),
           len := s.len - 1 }
  else none

/-- The loop `for i, contract := range *c { if contract.Name == name { ... } }` of
`Contracts.Remove`.  The range expression is evaluated once, so the loop makes
`k` more iterations starting at index `i` whatever happens to `len(*c)`; each
iteration reads `contract` from the backing array at index `i`. -/
def removeLoop (name : String) : Nat → Nat → SliceState → Option SliceState
  | 0, _, s => some s
  | k + 1, i, s =>
    match s.arr.get? i with
    | none => none
    | some contract =>
      if contract.Name = name then
        match removeAt s i with
        | none => none
        | some s1 => removeLoop name k (i + 1) s1
      else removeLoop name k (i + 1) s

/-- `Contracts.Remove`: `none` is a run-time panic; otherwise the collection after
the call and the returned error (`none` for `nil`). -/
def Contracts.Remove (c : Contracts) (name : String) : Option (Contracts × Option String) :=
  match Contracts.ByName c name with
  | .error err => some (c, some err)
  | .ok _ =>
    match removeLoop name c.length 0 { arr := c, len := c.length } with
    | none => none
    | some s => some (s.arr.take s.len, none)

/-- The names of a collection, in order. -/
def Contracts.names (c : Contracts) : List String :=
  c.map Contract.Name

/-! ## `internal/accounts/create.go`: the confirmation poller -/

/-- Modelled from the spec: the confirmation event ("account key added") as the
poller sees it after `flowkit.NewEvents`, which is not among the sources: the public
key that was attached and the address of the account it was attached to. -/
structure Event where
  publicKey : String
  address : Nat
deriving DecidableEq, Repr

/-- The events of one block, as `Events.Get` returns them (`flow.BlockEvents`). -/
structure BlockEvents where
  Height : Nat
  Events : List Event
deriving DecidableEq, Repr

/-- Modelled from the spec: `Events.GetAddressForKeyAdded`, which is not among the
sources.  The events are scanned in arrival order for the first one whose attached
key is `pubKey`, and its account address is extracted; `nil` when there is none. -/
def GetAddressForKeyAdded : List Event → String → Option Nat
  | [], _ => none
  | event :: rest, pubKey =>
    if event.publicKey = pubKey then some event.address else GetAddressForKeyAdded rest pubKey

/-- The answers of the chain: `GetLatestBlockHeight i` is what
`service.Blocks.GetLatestBlockHeight()` returns in polling iteration `i` (counted from
0), `EventsGet i start last` what `service.Events.Get` returns there for the
"account key added" events of the heights `start .. last`. -/
structure Services where
  GetLatestBlockHeight : Nat → Except String Nat
  EventsGet : Nat → Nat → Nat → Except String (List BlockEvents)

/-- What the poller does to the outside, in order. -/
inductive ChainCall where
  | latestHeight
  | events (startHeight lastHeight : Nat)
  | sleep
deriving DecidableEq, Repr

/-- The `uint64` subtraction `lastHeight-startHeight` (wrapping modulo `2^64`). -/
def heightSpan (lastHeight startHeight : Nat) : Nat :=
  (lastHeight % 2 ^ 64 + 2 ^ 64 - startHeight % 2 ^ 64) % 2 ^ 64

/-- The loop `for _, block := range flowEvents` of the poller: the address found in the
first block in which `GetAddressForKeyAdded` finds one. -/
def scanBlocks : List BlockEvents → String → Option Nat
  | [], _ => none
  | block :: rest, pubKey =>
    match GetAddressForKeyAdded block.Events pubKey with
    | some address => some address
    | none => scanBlocks rest pubKey

/-- The error of the poller when the ceiling is exceeded. -/
def timeoutError : String :=
  "failed to get the account address due to time out"

/-- `getAccountCreatedAddressWithPubKey`.  The Go function calls itself; `fuel` bounds
the number of nested calls and `none` says that they did not all return within it.
`iter` counts the polling iterations made so far.  The result is the list of calls made
and what the function returns. -/
def getAccountCreatedAddressWithPubKey (service : Services) (pubKey : String)
    (startHeight : Nat) : Nat → Nat → Option (List ChainCall × Except String Nat)
  | 0, _ => none
  | fuel + 1, iter =>
    match service.GetLatestBlockHeight iter with
    | .error err => some ([.latestHeight], .error err)
    | .ok lastHeight =>
      match service.EventsGet iter startHeight lastHeight with
      | .error err => some ([.latestHeight, .events startHeight lastHeight], .error err)
      | .ok flowEvents =>
        match scanBlocks flowEvents pubKey with
        | some address => some ([.latestHeight, .events startHeight lastHeight], .ok address)
        | none =>
          if heightSpan lastHeight startHeight > 200 then
            some ([.latestHeight, .events startHeight lastHeight], .error timeoutError)
          else
            match getAccountCreatedAddressWithPubKey service pubKey startHeight fuel (iter + 1) with
            | none => none
            | some (calls, result) =>
              some (.latestHeight :: .events startHeight lastHeight :: .sleep :: calls, result)

/-- Number of latest-height fetches in a list of calls. -/
def heightFetches (calls : List ChainCall) : Nat :=
  (calls.filter (fun call => decide (call = .latestHeight))).length

/-- Number of event fetches in a list of calls. -/
def eventFetches (calls : List ChainCall) : Nat :=
  (calls.filter (fun call => match call with | .events _ _ => true | _ => false)).length

/-- The calls of `m` polling iterations that each ended in a retry, the first of them
being iteration `iter`, when iteration `j` saw the latest height `heights j`. -/
def retryCalls (startHeight : Nat) (heights : Nat → Nat) (iter : Nat) : Nat → List ChainCall
  | 0 => []
  | m + 1 =>
    .latestHeight :: .events startHeight (heights iter) :: .sleep ::
      retryCalls startHeight heights (iter + 1) m

/-- The first event, in arrival order, that carries `pubKey`: its address. -/
def firstMatch (events : List Event) (pubKey : String) : Option Nat :=
  (events.find? (fun event => decide (event.publicKey = pubKey))).map Event.address

/-- The number of polling iterations until the timeout when the first latest height
is `span` above the start height and grows by `d` per iteration. -/
def pollCount (d span : Nat) : Nat :=
  if span > 200 then 1 else (200 - span) / d + 2

/-! ## `internal/accounts/create.go`: persistence -/

/-- Modelled from the spec: where the secret material of an account lives
("inline" or "file-reference" with the path of the private document); the type
`flowkit.Account` is not among the sources. -/
inductive AccountSource where
  | inline
  | fileReference (path : String)
deriving DecidableEq, Repr

/-- Modelled from the spec: `flowkit.Account`, which is not among the sources: name,
address (unresolved until created), key descriptors and source. -/
structure Account where
  name : String
  address : Option Nat
  keys : List String
  source : AccountSource
deriving DecidableEq, Repr

/-- Modelled from the spec: `flowkit.NewAccount(name)`, an account record that holds
the name only. -/
def NewAccount (name : String) : Account :=
  { name := name, address := none, keys := [], source := .inline }

/-- Modelled from the spec: `Account.SetFromFile(path)` turns the record into a
file reference to `path`. -/
def Account.SetFromFile (a : Account) (path : String) : Account :=
  { a with source := .fileReference path }

/-- Modelled from the spec: `Accounts.AddOrUpdate(account)` of `flowkit`, which is not
among the sources: replace in place, preserving position, if the name exists; else
append. -/
def Accounts.AddOrUpdate : List Account → Account → List Account
  | [], account => [account]
  | existing :: rest, account =>
    if existing.name = account.name then account :: rest
    else existing :: Accounts.AddOrUpdate rest account

/-- The answers of the outside world to the persistence functions; an `Option String`
is the returned `error` (`none` for `nil`).
`Save path accounts` answers `State.Save(path)` for a state holding `accounts`,
`SaveDefault` answers `State.SaveDefault()`, `AddToGitIgnorePrompt` is the answer of
the user, and `Getwd`, `OpenFile`, `WriteString` are the three system calls of
`addToGitIgnore`. -/
structure World where
  Save : String → List Account → Option String
  SaveDefault : List Account → Option String
  AddToGitIgnorePrompt : String → Bool
  Getwd : Except String String
  OpenFile : String → Option String
  WriteString : String → String → Option String

/-- What the persistence functions do to the outside, in order. -/
inductive Effect where
  | savePrivate (fileName : String) (accounts : List Account)
  | saveDefault (accounts : List Account)
  | prompt (fileName : String)
  | getwd
  | openFile (path : String)
  | writeString (path text : String)
  | closeFile (path : String)
deriving DecidableEq, Repr

/-- `path.Join(currentWd, ".gitignore")` for a clean directory path, as `os.Getwd`
returns it: an empty element is ignored and the elements are joined by one slash. -/
def gitIgnorePath (currentWd : String) : String :=
  if currentWd = "" then ".gitignore"
  else if currentWd.data.getLast? = some '/' then currentWd ++ ".gitignore"
  else currentWd ++ "/.gitignore"

/-- `addToGitIgnore`: the effects made and the returned error. -/
def addToGitIgnore (w : World) (filename : String) : List Effect × Option String :=
  match w.Getwd with
  | .error err => ([.getwd], some err)
  | .ok currentWd =>
    let gitIgnoreDir := gitIgnorePath currentWd
    match w.OpenFile gitIgnoreDir with
    | some err => ([.getwd, .openFile gitIgnoreDir], some err)
    | none =>
      match w.WriteString gitIgnoreDir ("\n" ++ filename) with
      | some err =>
        ([.getwd, .openFile gitIgnoreDir, .writeString gitIgnoreDir ("\n" ++ filename),
          .closeFile gitIgnoreDir], some err)
      | none =>
        ([.getwd, .openFile gitIgnoreDir, .writeString gitIgnoreDir ("\n" ++ filename),
          .closeFile gitIgnoreDir], none)

/-- `savePrivateAccount`: a fresh state that holds the account alone is saved under
`fileName`; after a successful save the user is asked and, on consent,
`addToGitIgnore(fileName)` is called as a statement, its result dropped. -/
def savePrivateAccount (w : World) (fileName : String) (account : Account) :
    List Effect × Option String :=
  let privateAccounts := Accounts.AddOrUpdate [] account
  match w.Save fileName privateAccounts with
  | some err => ([.savePrivate fileName privateAccounts], some err)
  | none =>
    if w.AddToGitIgnorePrompt fileName then
      (.savePrivate fileName privateAccounts :: .prompt fileName ::
        (addToGitIgnore w fileName).1, none)
    else
      ([.savePrivate fileName privateAccounts, .prompt fileName], none)

/-- Result of a function that works on the shared state: the account collection of
the shared state afterwards, the effects made and the returned error. -/
structure SaveResult where
  accounts : List Account
  effects : List Effect
  err : Option String
deriving DecidableEq, Repr

/-- `saveAccountToPrivateConfigFile`. -/
def saveAccountToPrivateConfigFile (w : World) (state : List Account) (account : Account) :
    SaveResult :=
  let privateAccountFilename := account.name ++ ".private.json"
  match savePrivateAccount w privateAccountFilename account with
  | (effects, some err) => { accounts := state, effects := effects, err := some err }
  | (effects, none) =>
    let fromFileAccount := (NewAccount account.name).SetFromFile privateAccountFilename
    let state1 := Accounts.AddOrUpdate state fromFileAccount
    match w.SaveDefault state1 with
    | some err => { accounts := state1, effects := effects ++ [.saveDefault state1], err := some err }
    | none => { accounts := state1, effects := effects ++ [.saveDefault state1], err := none }

/-- `saveAccountToMainConfigFile`. -/
def saveAccountToMainConfigFile (w : World) (state : List Account) (account : Account) :
    SaveResult :=
  let state1 := Accounts.AddOrUpdate state account
  match w.SaveDefault state1 with
  | some err => { accounts := state1, effects := [.saveDefault state1], err := some err }
  | none => { accounts := state1, effects := [.saveDefault state1], err := none }

/-- `saveAccount`; `isEmulator` is the test `network == config.DefaultEmulatorNetwork()`. -/
def saveAccount (w : World) (state : List Account) (account : Account) (isEmulator : Bool) :
    SaveResult :=
  if isEmulator then saveAccountToMainConfigFile w state account
  else saveAccountToPrivateConfigFile w state account

/-! ## `internal/accounts/create.go`: `create` -/

/-- The flags of `accounts create` (`type flagsCreate struct`). -/
structure flagsCreate where
  Signer : String
  Keys : List String
  Weights : List Int
  SigAlgo : List String
  HashAlgo : List String
  Contracts : List String
  Include : List String
deriving DecidableEq, Repr

/-- What `create` calls.  Algorithms are the numeric values of the SDK enumerations,
whose `Unknown...` members are 0.  `createInteractive` stands for the whole
interactive flow. -/
structure CreateEnv where
  AccountsByName : String → Except String Account
  StringToSignatureAlgorithm : String → Nat
  StringToHashAlgorithm : String → Nat
  DecodePublicKeyHex : Nat → String → Except String String
  AccountsCreate : Account → List String → List Int → List Nat → List Nat → List String →
    Except String Nat
  createInteractive : Except String Nat

/-- `crypto.UnknownSignatureAlgorithm`. -/
def UnknownSignatureAlgorithm : Nat := 0

/-- `crypto.UnknownHashAlgorithm`. -/
def UnknownHashAlgorithm : Nat := 0

/-- The calls `create` makes, in order. -/
inductive CreateCall where
  | interactive
  | signerByName (name : String)
  | parseSigAlgo (text : String)
  | parseHashAlgo (text : String)
  | decodeKey (sigAlgo : Nat) (hex : String)
  | chainCreate
deriving DecidableEq, Repr

/-- How a run ends: a result, a returned error, or a run-time panic. -/
inductive Outcome (α : Type) where
  | ok (value : α)
  | error (msg : String)
  | panic
deriving DecidableEq, Repr

/-- The `AccountResult` of `create`: the account (its address) and the field
`include`, the fields to show in the output. -/
structure AccountResult where
  Account : Nat
  included : List String
deriving DecidableEq, Repr

/-- `fmt` verb `%s` applied to a `[]string`. -/
def fmtStrings (xs : List String) : String :=
  "[" ++ " ".intercalate xs ++ "]"

/-- The error of `create` for mismatched counts. -/
def countMismatchError (keys sigAlgos hashAlgos : Nat) : String :=
  "must provide a signature and hash algorithm for every key provided to --key: "
    ++ toString keys ++ " keys, " ++ toString sigAlgos ++ " signature algo, "
    ++ toString hashAlgos ++ " hash algo"

/-- The loop "read all signature algorithms": `all` is `createFlags.SigAlgo`, used in
the error text. -/
def readSigAlgos (env : CreateEnv) (all : List String) :
    List String → List CreateCall × Except String (List Nat)
  | [] => ([], .ok [])
  | sigAlgoStr :: rest =>
    let sigAlgo := env.StringToSignatureAlgorithm sigAlgoStr
    if sigAlgo = UnknownSignatureAlgorithm then
      ([.parseSigAlgo sigAlgoStr], .error ("invalid signature algorithm: " ++ fmtStrings all))
    else
      match readSigAlgos env all rest with
      | (calls, .ok sigAlgos) => (.parseSigAlgo sigAlgoStr :: calls, .ok (sigAlgo :: sigAlgos))
      | (calls, .error err) => (.parseSigAlgo sigAlgoStr :: calls, .error err)

/-- The loop "read all hash algorithms". -/
def readHashAlgos (env : CreateEnv) (all : List String) :
    List String → List CreateCall × Except String (List Nat)
  | [] => ([], .ok [])
  | hashAlgoStr :: rest =>
    let hashAlgo := env.StringToHashAlgorithm hashAlgoStr
    if hashAlgo = UnknownHashAlgorithm then
      ([.parseHashAlgo hashAlgoStr], .error ("invalid hash algorithm: " ++ fmtStrings all))
    else
      match readHashAlgos env all rest with
      | (calls, .ok hashAlgos) => (.parseHashAlgo hashAlgoStr :: calls, .ok (hashAlgo :: hashAlgos))
      | (calls, .error err) => (.parseHashAlgo hashAlgoStr :: calls, .error err)

/-- `strings.TrimPrefix(k, "0x")`. -/
def trimPrefix0x (k : String) : String :=
  match k.data with
  | '0' :: 'x' :: rest => String.mk rest
  | _ => k

/-- The loop "decode public keys", from index `i` on; `sigAlgos[i]` out of range is a
panic.  On a decoding error the returned key is `nil`, which `%s` prints as
`%!s(<nil>)`. -/
def decodeKeys (env : CreateEnv) (sigAlgos : List Nat) :
    Nat → List String → List CreateCall × Outcome (List String)
  | _, [] => ([], .ok [])
  | i, k :: rest =>
    match sigAlgos.get? i with
    | none => ([], .panic)
    | some sigAlgo =>
      match env.DecodePublicKeyHex sigAlgo (trimPrefix0x k) with
      | .error err =>
        ([.decodeKey sigAlgo (trimPrefix0x k)],
          .error ("failed decoding public key: %!s(<nil>) with error: " ++ err))
      | .ok key =>
        match decodeKeys env sigAlgos (i + 1) rest with
        | (calls, .ok pubKeys) => (.decodeKey sigAlgo (trimPrefix0x k) :: calls, .ok (key :: pubKeys))
        | (calls, .error err) => (.decodeKey sigAlgo (trimPrefix0x k) :: calls, .error err)
        | (calls, .panic) => (.decodeKey sigAlgo (trimPrefix0x k) :: calls, .panic)

/-- The fill-up of `createFlags.SigAlgo` and `createFlags.HashAlgo` when each holds
one entry: for `i := 1; i < len(Keys); i++` the first entry is appended once more. -/
def fillUp (keys : Nat) (algos : List String) : List String :=
  match algos.head? with
  | none => algos
  | some first => algos ++ List.replicate (keys - 1) first

/-- The part of `create` from "read all signature algorithms" on, for the flags as
they stand after the length check. -/
def createWithAlgos (env : CreateEnv) (flags : flagsCreate) (signer : Account) :
    List CreateCall × Outcome AccountResult :=
  match readSigAlgos env flags.SigAlgo flags.SigAlgo with
  | (calls1, .error err) => (calls1, .error err)
  | (calls1, .ok sigAlgos) =>
    match readHashAlgos env flags.HashAlgo flags.HashAlgo with
    | (calls2, .error err) => (calls1 ++ calls2, .error err)
    | (calls2, .ok hashAlgos) =>
      match decodeKeys env sigAlgos 0 flags.Keys with
      | (calls3, .error err) => (calls1 ++ calls2 ++ calls3, .error err)
      | (calls3, .panic) => (calls1 ++ calls2 ++ calls3, .panic)
      | (calls3, .ok pubKeys) =>
        match env.AccountsCreate signer pubKeys flags.Weights sigAlgos hashAlgos
            flags.Contracts with
        | .error err => (calls1 ++ calls2 ++ calls3 ++ [.chainCreate], .error err)
        | .ok account =>
          (calls1 ++ calls2 ++ calls3 ++ [.chainCreate],
            .ok { Account := account, included := flags.Include })

/-- `create`: the calls made and the outcome. -/
def create (env : CreateEnv) (flags : flagsCreate) : List CreateCall × Outcome AccountResult :=
  if flags.Keys.length = 0 then
    match env.createInteractive with
    | .error err => ([.interactive], .error err)
    | .ok account => ([.interactive], .ok { Account := account, included := flags.Include })
  else
    match env.AccountsByName flags.Signer with
    | .error err => ([.signerByName flags.Signer], .error err)
    | .ok signer =>
      if flags.SigAlgo.length = 1 ∧ flags.HashAlgo.length = 1 then
        let flags1 :=
          if flags.Keys.length > 1 then
            { flags with SigAlgo := fillUp flags.Keys.length flags.SigAlgo,
                         HashAlgo := fillUp flags.Keys.length flags.HashAlgo }
          else flags
        let (calls, outcome) := createWithAlgos env flags1 signer
        (.signerByName flags.Signer :: calls, outcome)
      else if flags.Keys.length ≠ flags.SigAlgo.length
          ∨ flags.SigAlgo.length ≠ flags.HashAlgo.length then
        ([.signerByName flags.Signer],
          .error (countMismatchError flags.Keys.length flags.SigAlgo.length
            flags.HashAlgo.length))
      else
        let (calls, outcome) := createWithAlgos env flags signer
        (.signerByName flags.Signer :: calls, outcome)

/-! ## `pkg/flowkit/services`: `Events.Get`, known from `events_test.go` -/

/-- The gateway as `Events.Get` uses it: the height of the latest block and the events
of one type in a range of heights; each call may fail with an error. -/
structure Gateway where
  GetLatestBlock : Except String Nat
  GetEvents : String → Nat → Nat → Except String (List BlockEvents)

/-- The gateway calls `Events.Get` makes, in order (`mock.GetLatestBlock`,
`mock.GetEvents` in `TestEvents`). -/
inductive GatewayCall where
  | getLatestBlock
  | getEvents (name : String) (startHeight endHeight : Nat)
deriving DecidableEq, Repr

/-- Value of a string of decimal digits, read from the left with `acc` as the value so
far; `none` when a character is not a digit. -/
def digitsValue : List Char → Nat → Option Nat
  | [], acc => some acc
  | c :: rest, acc =>
    if c.isDigit then digitsValue rest (acc * 10 + (c.toNat - 48)) else none

/-- Modelled from the spec: reading a block height from its text.  The text has to be a
non-negative integer: one or more decimal digits, no sign. -/
def parseHeight (text : String) : Option Nat :=
  match text.data with
  | [] => none
  | cs => digitsValue cs 0

/-- The error of `Events.Get` for an inverted range, as `TestEvents` expects it. -/
def rangeError (endHeight startHeight : Nat) : String :=
  "cannot have end height (" ++ toString endHeight
    ++ ") of block range less that start height (" ++ toString startHeight ++ ")"

/-- Modelled from the spec: `Events.Get(name, start, end)` of the services package, of
which only the test `events_test.go` is among the sources.  The validation steps are
taken in the order the spec lists the error classes (empty event name, start height,
end height, inverted range) with the error texts of `TestEvents`; `"latest"` as end
is resolved through a latest-block lookup before the range is checked and the gateway
is queried.  The result is the list of gateway calls made and what is returned. -/
def Events.Get (gateway : Gateway) (name startText endText : String) :
    List GatewayCall × Except String (List BlockEvents) :=
  if name = "" then
    ([], .error "cannot use empty string as event name")
  else
    match parseHeight startText with
    | none => ([], .error ("failed to parse start height of block range: " ++ startText))
    | some startHeight =>
      if endText = "latest" then
        match gateway.GetLatestBlock with
        | .error err => ([.getLatestBlock], .error err)
        | .ok endHeight =>
          if endHeight < startHeight then
            ([.getLatestBlock], .error (rangeError endHeight startHeight))
          else
            ([.getLatestBlock, .getEvents name startHeight endHeight],
              gateway.GetEvents name startHeight endHeight)
      else
        match parseHeight endText with
        | none => ([], .error ("failed to parse end height of block range: " ++ endText))
        | some endHeight =>
          if endHeight < startHeight then
            ([], .error (rangeError endHeight startHeight))
          else
            ([.getEvents name startHeight endHeight],
              gateway.GetEvents name startHeight endHeight)

/-! ## Predicates and inputs used in the statements -/

/-- Some event of the event fetch `blocks` carries the public key. -/
def carriesKey (blocks : List BlockEvents) (pubKey : String) : Prop :=
  ∃ block ∈ blocks, ∃ event ∈ block.Events, event.publicKey = pubKey

/-- The events of an event fetch, all blocks in order. -/
def allEvents (blocks : List BlockEvents) : List Event :=
  (blocks.map BlockEvents.Events).flatten

/-- Polling iteration `j` (counted from 0) sees the latest height `heights j`, fetches
events without error, finds no event carrying the key, and its span
`lastHeight-startHeight` is at most 200. -/
def Retries (service : Services) (pubKey : String) (startHeight : Nat) (heights : Nat → Nat)
    (j : Nat) : Prop :=
  service.GetLatestBlockHeight j = .ok (heights j)
  ∧ (∃ blocks, service.EventsGet j startHeight (heights j) = .ok blocks
      ∧ ¬ carriesKey blocks pubKey)
  ∧ heightSpan (heights j) startHeight ≤ 200

/-- A chain whose latest height stays at 0 and that never has an event. -/
def stalledChain : Services :=
  { GetLatestBlockHeight := fun _ => .ok 0
    EventsGet := fun _ _ _ => .ok [] }

/-- A chain whose latest height is 10 in the first polling iteration and grows by 100
per iteration, and that never has an event. -/
def growingChain : Services :=
  { GetLatestBlockHeight := fun j => .ok (10 + j * 100)
    EventsGet := fun _ _ _ => .ok [] }

/-- A chain that shows the key of account 7 in the third polling iteration (after an
event of another key), at heights 1, 2, 3. -/
def thirdIterationChain : Services :=
  { GetLatestBlockHeight := fun j => .ok (j + 1)
    EventsGet := fun j _ _ =>
      if j = 2 then .ok [⟨2, [⟨"other", 5⟩]⟩, ⟨3, [⟨"key", 7⟩, ⟨"key", 9⟩]⟩] else .ok [] }

/-- A world in which every write of a private document fails. -/
def failingPrivateSave : World :=
  { Save := fun _ _ => some "disk full"
    SaveDefault := fun _ => none
    AddToGitIgnorePrompt := fun _ => true
    Getwd := .ok "/project"
    OpenFile := fun _ => none
    WriteString := fun _ _ => none }

/-- An environment of `create` in which every call succeeds. -/
def agreeableEnv : CreateEnv :=
  { AccountsByName := fun name => .ok (NewAccount name)
    StringToSignatureAlgorithm := fun _ => 2
    StringToHashAlgorithm := fun _ => 3
    DecodePublicKeyHex := fun _ hex => .ok hex
    AccountsCreate := fun _ _ _ _ _ _ => .ok 1
    createInteractive := .ok 1 }

/-- A world in which the private document and the shared document are saved, the
user accepts the prompt, and the write to the ignore file fails. -/
def gitIgnoreWriteFails : World :=
  { Save := fun _ _ => none
    SaveDefault := fun _ => none
    AddToGitIgnorePrompt := fun _ => true
    Getwd := .ok "/project"
    OpenFile := fun _ => none
    WriteString := fun _ _ => some "read-only file system" }

/-- A gateway like the mock of `TestEvents`: every call succeeds, the latest block
has height 100 and there are no events. -/
def mockGateway : Gateway :=
  { GetLatestBlock := .ok 100
    GetEvents := fun _ _ _ => .ok [] }

/-! ## Theorems: the contract collection -/

theorem ByName_AddOrUpdate_self (c : Contracts) (X : Contract) :
    Contracts.ByName (Contracts.AddOrUpdate c X.Name X) X.Name = .ok X := by
  induction c with
  | nil => simp [Contracts.AddOrUpdate, Contracts.ByName]
  | cons a rest ih =>
    by_cases h : a.Name = X.Name
    · simp [Contracts.AddOrUpdate, Contracts.ByName, h]
    · simp [Contracts.AddOrUpdate, Contracts.ByName, h, ih]

/-- C1, as stated, fails: `AddOrUpdate` files the contract under the name it carries,
so after `AddOrUpdate("a", X)` with `X.Name = "b"` on the empty collection the
lookup of `"a"` is the not-found error. -/
theorem C1_counterexample :
    Contracts.ByName (Contracts.AddOrUpdate [] "a" ⟨"b", "b.cdc", []⟩) "a"
      = .error (contractNotFound "a")
    ∧ Contracts.ByName (Contracts.AddOrUpdate [] "a" ⟨"b", "b.cdc", []⟩) "a"
      ≠ .ok ⟨"b", "b.cdc", []⟩ := by
  decide

/-- C1 (amended): for every collection `c`, name `n` and contract `X` whose own name
is `n`, the lookup `ByName(n)` after `AddOrUpdate(n, X)` returns `X` without error. -/
theorem C1_byName_after_addOrUpdate (c : Contracts) (n : String) (X : Contract)
    (hX : X.Name = n) :
    Contracts.ByName (Contracts.AddOrUpdate c n X) n = .ok X := by
  subst hX
  exact ByName_AddOrUpdate_self c X

/-- Instance of C1 (amended): updating `"B"` in a two-element collection. -/
theorem C1_byName_after_addOrUpdate_witness :
    Contracts.ByName
      (Contracts.AddOrUpdate [⟨"A", "a.cdc", []⟩, ⟨"B", "b.cdc", []⟩] "B" ⟨"B", "new.cdc", []⟩) "B"
      = .ok ⟨"B", "new.cdc", []⟩ :=
  C1_byName_after_addOrUpdate _ "B" ⟨"B", "new.cdc", []⟩ rfl

theorem AddOrUpdate_eq_set (c : Contracts) (n : String) (Y : Contract) (i : Nat)
    (hn : (c.get? i).map Contract.Name = some n)
    (hfirst : ∀ j, j < i → (c.get? j).map Contract.Name ≠ some n) :
    Contracts.AddOrUpdate c n Y = c.set i Y := by
  induction c generalizing i with
  | nil => simp at hn
  | cons a rest ih =>
    cases i with
    | zero =>
      have ha : a.Name = n := by simpa using hn
      simp [Contracts.AddOrUpdate, ha]
    | succ k =>
      have ha : a.Name ≠ n := by
        have := hfirst 0 (Nat.succ_pos k)
        simpa using this
      have hrest := ih k (by simpa using hn)
        (fun j hj => by simpa using hfirst (j + 1) (Nat.succ_lt_succ hj))
      simp [Contracts.AddOrUpdate, ha, hrest]

/-- C2, as stated, fails when the name occurs twice: with two contracts named `"N"`
and `i = 1`, `AddOrUpdate("N", Y)` overwrites index 0, so index 1 does not hold `Y`
and index 0 is not unchanged. -/
theorem C2_counterexample :
    (([⟨"N", "one.cdc", []⟩, ⟨"N", "two.cdc", []⟩] : Contracts).get? 1).map Contract.Name
      = some "N"
    ∧ (Contracts.AddOrUpdate [⟨"N", "one.cdc", []⟩, ⟨"N", "two.cdc", []⟩] "N"
        ⟨"N", "three.cdc", []⟩).get? 1 ≠ some ⟨"N", "three.cdc", []⟩
    ∧ (Contracts.AddOrUpdate [⟨"N", "one.cdc", []⟩, ⟨"N", "two.cdc", []⟩] "N"
        ⟨"N", "three.cdc", []⟩).get? 0
      ≠ ([⟨"N", "one.cdc", []⟩, ⟨"N", "two.cdc", []⟩] : Contracts).get? 0 := by
  decide

/-- C2 (amended): when index `i` is the first index of `c` that holds a contract named
`n`, `AddOrUpdate(n, Y)` keeps the length, puts `Y` at index `i` and leaves every other
index as it was. -/
theorem C2_addOrUpdate_replaces_in_place (c : Contracts) (n : String) (Y : Contract) (i : Nat)
    (hn : (c.get? i).map Contract.Name = some n)
    (hfirst : ∀ j, j < i → (c.get? j).map Contract.Name ≠ some n) :
    (Contracts.AddOrUpdate c n Y).length = c.length
    ∧ (Contracts.AddOrUpdate c n Y).get? i = some Y
    ∧ ∀ j, j ≠ i → (Contracts.AddOrUpdate c n Y).get? j = c.get? j := by
  have hi : i < c.length := by
    by_contra hlt
    rw [List.get?_eq_none.mpr (Nat.le_of_not_lt hlt)] at hn
    simp at hn
  rw [AddOrUpdate_eq_set c n Y i hn hfirst]
  refine ⟨List.length_set _ _ _, ?_, ?_⟩
  · simp [List.getElem?_set, hi]
  · intro j hj
    simp [List.getElem?_set, Ne.symm hj]

/-- Instance of C2 (amended): `"B"` sits at index 1 of three contracts. -/
theorem C2_addOrUpdate_replaces_in_place_witness :
    (Contracts.AddOrUpdate [⟨"A", "a.cdc", []⟩, ⟨"B", "b.cdc", []⟩, ⟨"C", "c.cdc", []⟩] "B"
        ⟨"B", "new.cdc", []⟩).length = 3
    ∧ (Contracts.AddOrUpdate [⟨"A", "a.cdc", []⟩, ⟨"B", "b.cdc", []⟩, ⟨"C", "c.cdc", []⟩] "B"
        ⟨"B", "new.cdc", []⟩).get? 1 = some ⟨"B", "new.cdc", []⟩
    ∧ ∀ j, j ≠ 1 →
        (Contracts.AddOrUpdate [⟨"A", "a.cdc", []⟩, ⟨"B", "b.cdc", []⟩, ⟨"C", "c.cdc", []⟩] "B"
          ⟨"B", "new.cdc", []⟩).get? j
        = ([⟨"A", "a.cdc", []⟩, ⟨"B", "b.cdc", []⟩, ⟨"C", "c.cdc", []⟩] : Contracts).get? j :=
  C2_addOrUpdate_replaces_in_place
    [⟨"A", "a.cdc", []⟩, ⟨"B", "b.cdc", []⟩, ⟨"C", "c.cdc", []⟩] "B" ⟨"B", "new.cdc", []⟩ 1
    (by decide)
    (fun j hj => by
      have h0 : j = 0 := by omega
      subst h0
      decide)

theorem ByName_of_absent (c : Contracts) (n : String) (h : ∀ x ∈ c, x.Name ≠ n) :
    Contracts.ByName c n = .error (contractNotFound n) := by
  induction c with
  | nil => rfl
  | cons a rest ih =>
    have ha : a.Name ≠ n := h a (List.mem_cons_self _ _)
    simp [Contracts.ByName, ha, ih (fun x hx => h x (List.mem_cons_of_mem _ hx))]

/-- C3: when no contract of `c` is named `n`, `Remove(n)` returns the not-found error
of `ByName` and the collection is `c` itself (same length, same elements, same order). -/
theorem C3_remove_absent (c : Contracts) (n : String) (h : ∀ x ∈ c, x.Name ≠ n) :
    Contracts.Remove c n = some (c, some (contractNotFound n)) := by
  simp [Contracts.Remove, ByName_of_absent c n h]

/-- Instance of C3: removing `"Z"` from a collection that holds `"A"` and `"B"`. -/
theorem C3_remove_absent_witness :
    Contracts.Remove [⟨"A", "a.cdc", []⟩, ⟨"B", "b.cdc", []⟩] "Z"
      = some ([⟨"A", "a.cdc", []⟩, ⟨"B", "b.cdc", []⟩],
          some "contract named Z does not exist in configuration") :=
  C3_remove_absent [⟨"A", "a.cdc", []⟩, ⟨"B", "b.cdc", []⟩] "Z" (by decide)

theorem ByNetwork_skip (pre rest : Aliases) (n : String) (h : ∀ y ∈ pre, y.Network ≠ n) :
    Aliases.ByNetwork (pre ++ rest) n = Aliases.ByNetwork rest n := by
  induction pre with
  | nil => rfl
  | cons a pre ih =>
    have ha : a.Network ≠ n := h a (List.mem_cons_self _ _)
    simp [Aliases.ByNetwork, ha, ih (fun y hy => h y (List.mem_cons_of_mem _ hy))]

theorem ByNetwork_eq_none_iff (a : Aliases) (n : String) :
    Aliases.ByNetwork a n = none ↔ ∀ x ∈ a, x.Network ≠ n := by
  induction a with
  | nil => simp [Aliases.ByNetwork]
  | cons b rest ih =>
    by_cases hb : b.Network = n
    · simp [Aliases.ByNetwork, hb]
    · simp [Aliases.ByNetwork, hb, ih]

theorem ByNetwork_eq_some_iff (a : Aliases) (n : String) (x : Alias) :
    Aliases.ByNetwork a n = some x ↔
      ∃ pre post, a = pre ++ x :: post ∧ x.Network = n ∧ ∀ y ∈ pre, y.Network ≠ n := by
  constructor
  · intro h
    induction a with
    | nil => simp [Aliases.ByNetwork] at h
    | cons b rest ih =>
      by_cases hb : b.Network = n
      · simp [Aliases.ByNetwork, hb] at h
        subst h
        exact ⟨[], rest, rfl, hb, by simp⟩
      · simp [Aliases.ByNetwork, hb] at h
        obtain ⟨pre, post, hsplit, hx, hpre⟩ := ih h
        refine ⟨b :: pre, post, by simp [hsplit], hx, ?_⟩
        intro y hy
        rcases List.mem_cons.mp hy with rfl | hy
        · exact hb
        · exact hpre y hy
  · rintro ⟨pre, post, rfl, hx, hpre⟩
    rw [ByNetwork_skip pre _ n hpre]
    simp [Aliases.ByNetwork, hx]

/-- C4: `ByNetwork(n)` is `nil` exactly when no alias of the list has network `n`;
it returns `x` exactly when `x` is the first alias in list order whose network is `n`;
so when exactly one alias has network `n`, its address is the one returned, whatever
aliases for other networks stand before or after it. -/
theorem C4_byNetwork_first_match (a : Aliases) (n : String) :
    (Aliases.ByNetwork a n = none ↔ ∀ x ∈ a, x.Network ≠ n)
    ∧ (∀ x, Aliases.ByNetwork a n = some x ↔
        ∃ pre post, a = pre ++ x :: post ∧ x.Network = n ∧ ∀ y ∈ pre, y.Network ≠ n)
    ∧ (∀ pre x post, a = pre ++ x :: post → x.Network = n →
        (∀ y ∈ pre ++ post, y.Network ≠ n) →
        (Aliases.ByNetwork a n).map Alias.Address = some x.Address) := by
  refine ⟨ByNetwork_eq_none_iff a n, ByNetwork_eq_some_iff a n, ?_⟩
  intro pre x post hsplit hx hothers
  have hsome : Aliases.ByNetwork a n = some x :=
    (ByNetwork_eq_some_iff a n x).mpr
      ⟨pre, post, hsplit, hx, fun y hy => hothers y (List.mem_append_left _ hy)⟩
  simp [hsome]

theorem removeLoop_skip (name : String) (k : Nat) :
    ∀ (i : Nat) (s : SliceState), i + k ≤ s.arr.length →
      (∀ j x, i ≤ j → s.arr.get? j = some x → x.Name ≠ name) →
      removeLoop name k i s = some s := by
  induction k with
  | zero => intro i s _ _; rfl
  | succ k ih =>
    intro i s hlen hne
    have hi : i < s.arr.length := by omega
    have hget : s.arr.get? i = some (s.arr.get ⟨i, hi⟩) := List.get?_eq_get hi
    have hx : (s.arr.get ⟨i, hi⟩).Name ≠ name := hne i _ (Nat.le_refl i) hget
    rw [removeLoop, hget]
    simp only [hx, if_false]
    exact ih (i + 1) s (by omega) (fun j x hj => hne j x (by omega))

theorem mem_of_tail_stale (b x : Contract) (back : List Contract) (m : Nat)
    (h : (back ++ (b :: back).drop back.length).get? (m + 1) = some x) : x ∈ back := by
  cases back with
  | nil => simp at h
  | cons y ys =>
    have hmem : x ∈ (y :: ys) ++ List.drop (y :: ys).length (b :: y :: ys) :=
      List.get?_mem h
    rcases List.mem_append.mp hmem with h1 | h1
    · exact h1
    · have h2 : x ∈ List.drop ys.length (y :: ys) := by simpa using h1
      exact List.mem_of_mem_drop h2

theorem removeLoop_nodup (name : String) (back : List Contract) :
    ∀ front : List Contract, (back.map Contract.Name).Nodup →
      ∃ s, removeLoop name back.length front.length
              { arr := front ++ back, len := (front ++ back).length } = some s
        ∧ s.arr.take s.len = front ++ back.filter (fun x => decide (x.Name ≠ name)) := by
  induction back with
  | nil =>
    intro front _
    exact ⟨_, rfl, by simp⟩
  | cons b back ih =>
    intro front hnd
    have hnd1 : (back.map Contract.Name).Nodup := (List.nodup_cons.mp hnd).2
    have hget : (front ++ b :: back).get? front.length = some b := by
      rw [List.get?_eq_getElem?, List.getElem?_append_right (Nat.le_refl _)]
      simp
    by_cases hb : b.Name = name
    · -- the one removal; the rest of the loop finds nothing more
      have hrest : ∀ x ∈ back, x.Name ≠ name := by
        intro x hx hxn
        apply (List.nodup_cons.mp hnd).1
        rw [hb, ← hxn]
        exact List.mem_map_of_mem _ hx
      have hat : removeAt { arr := front ++ b :: back, len := (front ++ b :: back).length }
            front.length
          = some { arr := front ++ (back ++ (b :: back).drop back.length),
                   len := front.length + back.length } := by
        have h1 : front.length + 1 ≤ (front ++ b :: back).length := by simp
        have h2 : List.drop ((front ++ b :: back).length - 1) (front ++ b :: back)
            = (b :: back).drop back.length := by
          have : (front ++ b :: back).length - 1 = front.length + back.length := by simp
          rw [this, List.drop_append]
        have h3 : List.drop (front.length + 1)
            (List.take (front ++ b :: back).length (front ++ b :: back)) = back := by
          rw [List.take_length]
          have : front ++ b :: back = (front ++ [b]) ++ back := by simp
          rw [this]
          exact List.drop_left' (by simp)
        simp only [removeAt, h1, if_true, h2, h3, List.take_left, List.append_assoc]
        simp
      refine ⟨{ arr := front ++ (back ++ (b :: back).drop back.length),
                len := front.length + back.length }, ?_, ?_⟩
      · rw [List.length_cons, removeLoop, hget]
        simp only [hb, if_true, hat]
        apply removeLoop_skip
        · simp
          omega
        · intro j x hj hx
          have hx1 : (back ++ (b :: back).drop back.length).get? (j - front.length) = some x := by
            rw [List.get?_eq_getElem?] at hx ⊢
            rw [List.getElem?_append_right (by omega)] at hx
            exact hx
          obtain ⟨m, hm⟩ : ∃ m, j - front.length = m + 1 := ⟨j - front.length - 1, by omega⟩
          rw [hm] at hx1
          exact hrest x (mem_of_tail_stale b x back m hx1)
      · have hfilter : List.filter (fun x => decide (x.Name ≠ name)) (b :: back) = back := by
          rw [List.filter_cons_of_neg (by simp [hb])]
          exact List.filter_eq_self.mpr (fun x hx => by simpa using hrest x hx)
        rw [hfilter]
        show List.take (front.length + back.length)
            (front ++ (back ++ (b :: back).drop back.length)) = front ++ back
        rw [List.take_append, List.take_left]
    · obtain ⟨s, hs, htake⟩ := ih (front ++ [b]) hnd1
      refine ⟨s, ?_, ?_⟩
      · rw [List.length_cons, removeLoop, hget]
        simp only [hb, if_false]
        have e1 : front ++ b :: back = (front ++ [b]) ++ back := by simp
        have e2 : front.length + 1 = (front ++ [b]).length := by simp
        rw [e1, e2]
        exact hs
      · rw [htake, List.filter_cons_of_pos (by simp [hb])]
        simp

theorem ByName_ok_of_mem (c : Contracts) (n : String) (h : ∃ x ∈ c, x.Name = n) :
    ∃ y, Contracts.ByName c n = .ok y := by
  induction c with
  | nil => simp at h
  | cons a rest ih =>
    by_cases ha : a.Name = n
    · exact ⟨a, by simp [Contracts.ByName, ha]⟩
    · obtain ⟨x, hx, hxn⟩ := h
      rcases List.mem_cons.mp hx with rfl | hx
      · exact absurd hxn ha
      · obtain ⟨y, hy⟩ := ih ⟨x, hx, hxn⟩
        exact ⟨y, by simp [Contracts.ByName, ha, hy]⟩

theorem Remove_of_nodup (c : Contracts) (n : String) (hc : c.names.Nodup)
    (h : ∃ x ∈ c, x.Name = n) :
    Contracts.Remove c n = some (c.filter (fun x => decide (x.Name ≠ n)), none) := by
  obtain ⟨y, hy⟩ := ByName_ok_of_mem c n h
  obtain ⟨s, hs, htake⟩ := removeLoop_nodup n c [] hc
  simp only [List.nil_append, List.length_nil] at hs htake
  simp [Contracts.Remove, hy, hs, htake]

theorem AddOrUpdate_names (c : Contracts) (X : Contract) :
    (Contracts.AddOrUpdate c X.Name X).names = c.names
    ∨ ((Contracts.AddOrUpdate c X.Name X).names = c.names ++ [X.Name] ∧ X.Name ∉ c.names) := by
  induction c with
  | nil => right; simp [Contracts.AddOrUpdate, Contracts.names]
  | cons a rest ih =>
    by_cases ha : a.Name = X.Name
    · left; simp [Contracts.AddOrUpdate, Contracts.names, ha]
    · rcases ih with h | ⟨h, hnot⟩
      · left
        simp only [Contracts.names] at h
        simp [Contracts.AddOrUpdate, Contracts.names, ha, h]
      · right
        simp only [Contracts.names] at h hnot
        refine ⟨by simp [Contracts.AddOrUpdate, Contracts.names, ha, h], ?_⟩
        simp only [Contracts.names, List.map_cons, List.mem_cons, not_or]
        exact ⟨fun e => ha e.symm, hnot⟩

/-- C5, as stated, fails for `AddOrUpdate`: the new contract is stored under its own
name, so updating `"A"` with a contract named `"B"` in a collection that already
holds `"B"` leaves two contracts named `"B"`. -/
theorem C5_counterexample :
    (Contracts.names [⟨"A", "a.cdc", []⟩, ⟨"B", "b.cdc", []⟩]).Nodup
    ∧ ¬ (Contracts.names
          (Contracts.AddOrUpdate [⟨"A", "a.cdc", []⟩, ⟨"B", "b.cdc", []⟩] "A"
            ⟨"B", "new.cdc", []⟩)).Nodup := by
  decide

/-- C5 (amended): for a collection with pairwise distinct names, `AddOrUpdate(n, X)`
with a contract `X` whose own name is `n` gives a collection with pairwise distinct
names, and `Remove(n)` returns (without panic) leaving a collection with pairwise
distinct names. -/
theorem C5_unique_names_preserved (c : Contracts) (n : String) (hc : c.names.Nodup) :
    (∀ X : Contract, X.Name = n → (Contracts.AddOrUpdate c n X).names.Nodup)
    ∧ ∃ c1 err, Contracts.Remove c n = some (c1, err) ∧ c1.names.Nodup := by
  constructor
  · intro X hX
    subst hX
    rcases AddOrUpdate_names c X with h | ⟨h, hnot⟩
    · rw [h]; exact hc
    · rw [h]
      exact List.Nodup.append hc (List.nodup_singleton _) (by simpa using hnot)
  · by_cases h : ∃ x ∈ c, x.Name = n
    · refine ⟨_, none, Remove_of_nodup c n hc h, ?_⟩
      exact List.Nodup.sublist (List.Sublist.map _ (List.filter_sublist c)) hc
    · refine ⟨c, some (contractNotFound n), ?_, hc⟩
      simp [Contracts.Remove, ByName_of_absent c n (fun x hx hn => h ⟨x, hx, hn⟩)]

/-- Instance of C5 on a three-element collection. -/
theorem C5_unique_names_preserved_witness :
    (∀ X : Contract, X.Name = "B" →
      (Contracts.AddOrUpdate [⟨"A", "a.cdc", []⟩, ⟨"B", "b.cdc", []⟩, ⟨"C", "c.cdc", []⟩]
        "B" X).names.Nodup)
    ∧ ∃ c1 err,
        Contracts.Remove [⟨"A", "a.cdc", []⟩, ⟨"B", "b.cdc", []⟩, ⟨"C", "c.cdc", []⟩] "B"
          = some (c1, err) ∧ c1.names.Nodup :=
  C5_unique_names_preserved
    [⟨"A", "a.cdc", []⟩, ⟨"B", "b.cdc", []⟩, ⟨"C", "c.cdc", []⟩] "B" (by decide)

/-! ## Theorems: persistence -/

/-- C6: when saving the private document fails with `err`,
`saveAccountToPrivateConfigFile` returns `err`, the account collection of the shared
state is the one it was given, and the only effect is the attempt to save the
private document: the shared document is not saved. -/
theorem C6_private_save_failure (w : World) (state : List Account) (account : Account)
    (err : String)
    (hfail : w.Save (account.name ++ ".private.json") (Accounts.AddOrUpdate [] account)
      = some err) :
    (saveAccountToPrivateConfigFile w state account).err = some err
    ∧ (saveAccountToPrivateConfigFile w state account).accounts = state
    ∧ (saveAccountToPrivateConfigFile w state account).effects
        = [.savePrivate (account.name ++ ".private.json") (Accounts.AddOrUpdate [] account)]
    ∧ ∀ accounts, Effect.saveDefault accounts
        ∉ (saveAccountToPrivateConfigFile w state account).effects := by
  have h : saveAccountToPrivateConfigFile w state account
      = { accounts := state,
          effects := [.savePrivate (account.name ++ ".private.json")
            (Accounts.AddOrUpdate [] account)],
          err := some err } := by
    simp [saveAccountToPrivateConfigFile, savePrivateAccount, hfail]
  rw [h]
  simp

/-- Instance of C6: the private save fails with "disk full". -/
theorem C6_private_save_failure_witness :
    (saveAccountToPrivateConfigFile failingPrivateSave [NewAccount "old"]
        ⟨"alice", some 7, ["key"], .inline⟩).err = some "disk full"
    ∧ (saveAccountToPrivateConfigFile failingPrivateSave [NewAccount "old"]
        ⟨"alice", some 7, ["key"], .inline⟩).accounts = [NewAccount "old"]
    ∧ (saveAccountToPrivateConfigFile failingPrivateSave [NewAccount "old"]
        ⟨"alice", some 7, ["key"], .inline⟩).effects
        = [.savePrivate ("alice" ++ ".private.json")
            (Accounts.AddOrUpdate [] ⟨"alice", some 7, ["key"], .inline⟩)]
    ∧ ∀ accounts, Effect.saveDefault accounts
        ∉ (saveAccountToPrivateConfigFile failingPrivateSave [NewAccount "old"]
            ⟨"alice", some 7, ["key"], .inline⟩).effects :=
  C6_private_save_failure failingPrivateSave [NewAccount "old"]
    ⟨"alice", some 7, ["key"], .inline⟩ "disk full" rfl

/-! ## Theorems: the confirmation poller -/

theorem GetAddressForKeyAdded_eq_firstMatch (events : List Event) (pubKey : String) :
    GetAddressForKeyAdded events pubKey = firstMatch events pubKey := by
  induction events with
  | nil => rfl
  | cons e rest ih =>
    by_cases he : e.publicKey = pubKey
    · simp [GetAddressForKeyAdded, firstMatch, he]
    · simp only [firstMatch] at ih
      simp [GetAddressForKeyAdded, firstMatch, he, ih]

theorem firstMatch_append (xs ys : List Event) (pubKey : String) :
    firstMatch (xs ++ ys) pubKey
      = match firstMatch xs pubKey with
        | some a => some a
        | none => firstMatch ys pubKey := by
  simp only [firstMatch, List.find?_append]
  cases List.find? (fun event => decide (event.publicKey = pubKey)) xs <;> simp

theorem scanBlocks_eq_firstMatch (blocks : List BlockEvents) (pubKey : String) :
    scanBlocks blocks pubKey = firstMatch (allEvents blocks) pubKey := by
  induction blocks with
  | nil => rfl
  | cons b rest ih =>
    have hall : allEvents (b :: rest) = b.Events ++ allEvents rest := by
      simp [allEvents]
    rw [hall, firstMatch_append, scanBlocks, GetAddressForKeyAdded_eq_firstMatch, ih]

theorem firstMatch_eq_none_iff (events : List Event) (pubKey : String) :
    firstMatch events pubKey = none ↔ ∀ e ∈ events, e.publicKey ≠ pubKey := by
  simp [firstMatch]

theorem scanBlocks_eq_none_iff (blocks : List BlockEvents) (pubKey : String) :
    scanBlocks blocks pubKey = none ↔ ¬ carriesKey blocks pubKey := by
  rw [scanBlocks_eq_firstMatch, firstMatch_eq_none_iff]
  simp only [allEvents, carriesKey, List.mem_flatten, List.mem_map]
  constructor
  · rintro h ⟨b, hb, e, he, hk⟩
    exact h e ⟨b.Events, ⟨b, hb, rfl⟩, he⟩ hk
  · rintro h e ⟨l, ⟨b, hb, rfl⟩, he⟩ hk
    exact h ⟨b, hb, e, he, hk⟩

theorem poll_found (service : Services) (pubKey : String) (startHeight iter fuel : Nat)
    (lastHeight : Nat) (blocks : List BlockEvents) (address : Nat)
    (hheight : service.GetLatestBlockHeight iter = .ok lastHeight)
    (hevents : service.EventsGet iter startHeight lastHeight = .ok blocks)
    (hscan : scanBlocks blocks pubKey = some address) :
    getAccountCreatedAddressWithPubKey service pubKey startHeight (fuel + 1) iter
      = some ([.latestHeight, .events startHeight lastHeight], .ok address) := by
  simp [getAccountCreatedAddressWithPubKey, hheight, hevents, hscan]

theorem poll_timeout (service : Services) (pubKey : String) (startHeight iter fuel : Nat)
    (lastHeight : Nat) (blocks : List BlockEvents)
    (hheight : service.GetLatestBlockHeight iter = .ok lastHeight)
    (hevents : service.EventsGet iter startHeight lastHeight = .ok blocks)
    (hscan : scanBlocks blocks pubKey = none)
    (hspan : heightSpan lastHeight startHeight > 200) :
    getAccountCreatedAddressWithPubKey service pubKey startHeight (fuel + 1) iter
      = some ([.latestHeight, .events startHeight lastHeight], .error timeoutError) := by
  simp [getAccountCreatedAddressWithPubKey, hheight, hevents, hscan, hspan]

theorem poll_retry (service : Services) (pubKey : String) (startHeight : Nat)
    (heights : Nat → Nat) (fuel : Nat) (m : Nat) :
    ∀ iter, (∀ j, j < m → Retries service pubKey startHeight heights (iter + j)) →
      getAccountCreatedAddressWithPubKey service pubKey startHeight (m + fuel) iter
        = (getAccountCreatedAddressWithPubKey service pubKey startHeight fuel (iter + m)).map
            (fun r => (retryCalls startHeight heights iter m ++ r.1, r.2)) := by
  induction m with
  | zero =>
    intro iter _
    simp [retryCalls]
  | succ m ih =>
    intro iter hret
    obtain ⟨hheight, ⟨blocks, hevents, hnokey⟩, hspan⟩ := hret 0 (Nat.succ_pos m)
    have hscan : scanBlocks blocks pubKey = none :=
      (scanBlocks_eq_none_iff blocks pubKey).mpr hnokey
    have hnext := ih (iter + 1) (fun j hj => by
      have := hret (j + 1) (Nat.succ_lt_succ hj)
      rwa [show iter + (j + 1) = iter + 1 + j by omega] at this)
    have hfuel : m + 1 + fuel = (m + fuel) + 1 := by omega
    rw [hfuel, getAccountCreatedAddressWithPubKey]
    simp only [Nat.add_zero] at hheight hevents hspan
    simp only [hheight, hevents, hscan, Nat.not_lt.mpr hspan, if_false, hnext]
    rw [show iter + 1 + m = iter + (m + 1) by omega]
    cases getAccountCreatedAddressWithPubKey service pubKey startHeight fuel (iter + (m + 1)) with
    | none => rfl
    | some r => simp [retryCalls]

theorem heightFetches_retryCalls (startHeight : Nat) (heights : Nat → Nat) (m : Nat) :
    ∀ iter, heightFetches (retryCalls startHeight heights iter m) = m := by
  induction m with
  | zero => intro iter; rfl
  | succ m ih =>
    intro iter
    have := ih (iter + 1)
    simp only [heightFetches] at this
    simp [heightFetches, retryCalls, this]

theorem eventFetches_retryCalls (startHeight : Nat) (heights : Nat → Nat) (m : Nat) :
    ∀ iter, eventFetches (retryCalls startHeight heights iter m) = m := by
  induction m with
  | zero => intro iter; rfl
  | succ m ih =>
    intro iter
    have := ih (iter + 1)
    simp only [eventFetches] at this
    simp [eventFetches, retryCalls, this]

theorem heightFetches_append (xs ys : List ChainCall) :
    heightFetches (xs ++ ys) = heightFetches xs + heightFetches ys := by
  simp [heightFetches]

theorem eventFetches_append (xs ys : List ChainCall) :
    eventFetches (xs ++ ys) = eventFetches xs + eventFetches ys := by
  simp [eventFetches]

/-- C7: when the polling iterations before iteration `k` each fetch successfully, see no
event carrying the key and have a span of at most 200, and the event fetch of
iteration `k` has `address` as the address of its first event (in block and arrival
order) carrying the key, then the poller returns `address`; its calls are those of the
`k-1` retries followed by the two fetches of iteration `k` and nothing else, so exactly
`k` height fetches and `k` event fetches are made. -/
theorem C7_first_match_wins (service : Services) (pubKey : String) (startHeight : Nat)
    (heights : Nat → Nat) (k : Nat) (blocks : List BlockEvents) (address : Nat)
    (hk : 1 ≤ k)
    (hearlier : ∀ j, j < k - 1 → Retries service pubKey startHeight heights j)
    (hheight : service.GetLatestBlockHeight (k - 1) = .ok (heights (k - 1)))
    (hevents : service.EventsGet (k - 1) startHeight (heights (k - 1)) = .ok blocks)
    (hfound : firstMatch (allEvents blocks) pubKey = some address)
    (fuel : Nat) (hfuel : k ≤ fuel) :
    getAccountCreatedAddressWithPubKey service pubKey startHeight fuel 0
      = some (retryCalls startHeight heights 0 (k - 1)
                ++ [.latestHeight, .events startHeight (heights (k - 1))], .ok address)
    ∧ heightFetches (retryCalls startHeight heights 0 (k - 1)
                ++ [.latestHeight, .events startHeight (heights (k - 1))]) = k
    ∧ eventFetches (retryCalls startHeight heights 0 (k - 1)
                ++ [.latestHeight, .events startHeight (heights (k - 1))]) = k := by
  obtain ⟨rest, hrest⟩ : ∃ rest, fuel = (k - 1) + (rest + 1) := ⟨fuel - k, by omega⟩
  refine ⟨?_, ?_, ?_⟩
  · rw [hrest, poll_retry service pubKey startHeight heights (rest + 1) (k - 1) 0
      (fun j hj => by simpa using hearlier j hj)]
    have hscan : scanBlocks blocks pubKey = some address := by
      rw [scanBlocks_eq_firstMatch]; exact hfound
    rw [Nat.zero_add, poll_found service pubKey startHeight (k - 1) rest _ blocks address
      hheight hevents hscan]
    rfl
  · rw [heightFetches_append, heightFetches_retryCalls]
    simp [heightFetches]
    omega
  · rw [eventFetches_append, eventFetches_retryCalls]
    simp [eventFetches]
    omega

/-- Instance of C7: the key shows up in the third polling iteration. -/
theorem C7_first_match_wins_witness :
    getAccountCreatedAddressWithPubKey thirdIterationChain "key" 0 5 0
      = some (retryCalls 0 (fun j => j + 1) 0 (3 - 1)
                ++ [.latestHeight, .events 0 ((fun j => j + 1) (3 - 1))], .ok 7)
    ∧ heightFetches (retryCalls 0 (fun j => j + 1) 0 (3 - 1)
                ++ [.latestHeight, .events 0 ((fun j => j + 1) (3 - 1))]) = 3
    ∧ eventFetches (retryCalls 0 (fun j => j + 1) 0 (3 - 1)
                ++ [.latestHeight, .events 0 ((fun j => j + 1) (3 - 1))]) = 3 :=
  C7_first_match_wins thirdIterationChain "key" 0 (fun j => j + 1) 3
    [⟨2, [⟨"other", 5⟩]⟩, ⟨3, [⟨"key", 7⟩, ⟨"key", 9⟩]⟩] 7 (by decide)
    (fun j hj => by
      have hj2 : j = 0 ∨ j = 1 := by omega
      rcases hj2 with rfl | rfl
      · exact ⟨rfl, ⟨[], rfl, by simp [carriesKey]⟩, by decide⟩
      · exact ⟨rfl, ⟨[], rfl, by simp [carriesKey]⟩, by decide⟩)
    rfl rfl (by decide) 5 (by decide)

theorem heightSpan_of_le (lastHeight startHeight : Nat) (hle : startHeight ≤ lastHeight)
    (hfits : lastHeight < 2 ^ 64) : heightSpan lastHeight startHeight = lastHeight - startHeight := by
  have hs : startHeight < 2 ^ 64 := Nat.lt_of_le_of_lt hle hfits
  unfold heightSpan
  rw [Nat.mod_eq_of_lt hfits, Nat.mod_eq_of_lt hs]
  have h1 : lastHeight + 2 ^ 64 - startHeight = (lastHeight - startHeight) + 2 ^ 64 := by omega
  rw [h1, Nat.add_mod_right]
  exact Nat.mod_eq_of_lt (by omega)

theorem stalledChain_never_returns (pubKey : String) (fuel : Nat) :
    ∀ iter, getAccountCreatedAddressWithPubKey stalledChain pubKey 0 fuel iter = none := by
  induction fuel with
  | zero => intro iter; rfl
  | succ fuel ih =>
    intro iter
    have hspan : ¬ heightSpan 0 0 > 200 := by decide
    have h1 : stalledChain.GetLatestBlockHeight iter = .ok 0 := rfl
    have h2 : stalledChain.EventsGet iter 0 0 = .ok [] := rfl
    rw [getAccountCreatedAddressWithPubKey]
    simp only [h1, h2, scanBlocks, hspan, if_false, ih (iter + 1)]

/-- C8 fails on the code: on a chain that answers every fetch successfully, never shows
an event and whose latest height stays at the start height 0, the guard
`lastHeight-startHeight > 200` is never met, so no number of nested calls is enough for
the poller to return: it polls forever, against the comment on that guard ("don't keep
waiting forever"). -/
theorem C8_stalled_chain_polls_forever :
    (∀ j, stalledChain.GetLatestBlockHeight j = .ok 0)
    ∧ (∀ j startHeight lastHeight, stalledChain.EventsGet j startHeight lastHeight = .ok [])
    ∧ ¬ ∃ fuel, (getAccountCreatedAddressWithPubKey stalledChain "key" 0 fuel 0).isSome := by
  refine ⟨fun _ => rfl, fun _ _ _ => rfl, ?_⟩
  rintro ⟨fuel, h⟩
  rw [stalledChain_never_returns "key" fuel 0] at h
  exact absurd h (by decide)

/-- What the guard does achieve: when every fetch succeeds, no event carries the public
key and the span `lastHeight-startHeight` exceeds 200 in some polling iteration `m`,
the poller returns the timeout error after `n+1` iterations, where `n ≤ m` is the first
iteration whose span exceeds 200 (any fuel above `n` is enough). -/
theorem poll_times_out_at_first_exceeding_span (service : Services) (pubKey : String)
    (startHeight : Nat) (heights : Nat → Nat) (m : Nat)
    (hresp : ∀ j, service.GetLatestBlockHeight j = .ok (heights j)
      ∧ ∃ blocks, service.EventsGet j startHeight (heights j) = .ok blocks
          ∧ ¬ carriesKey blocks pubKey)
    (hexceeds : heightSpan (heights m) startHeight > 200) :
    ∃ n, n ≤ m
      ∧ heightSpan (heights n) startHeight > 200
      ∧ (∀ j, j < n → heightSpan (heights j) startHeight ≤ 200)
      ∧ ∀ fuel, n < fuel →
          getAccountCreatedAddressWithPubKey service pubKey startHeight fuel 0
            = some (retryCalls startHeight heights 0 n
                      ++ [.latestHeight, .events startHeight (heights n)],
                    .error timeoutError) := by
  have hex : ∃ n, heightSpan (heights n) startHeight > 200 := ⟨m, hexceeds⟩
  refine ⟨Nat.find hex, Nat.find_min' hex hexceeds, Nat.find_spec hex,
    fun j hj => Nat.le_of_not_lt (Nat.find_min hex hj), ?_⟩
  intro fuel hfuel
  obtain ⟨rest, hrest⟩ : ∃ rest, fuel = Nat.find hex + (rest + 1) :=
    ⟨fuel - Nat.find hex - 1, by omega⟩
  rw [hrest, poll_retry service pubKey startHeight heights (rest + 1) (Nat.find hex) 0
    (fun j hj => by
      rw [Nat.zero_add]
      exact ⟨(hresp j).1, (hresp j).2, Nat.le_of_not_lt (Nat.find_min hex hj)⟩)]
  obtain ⟨blocks, hevents, hnokey⟩ := (hresp (Nat.find hex)).2
  rw [Nat.zero_add, poll_timeout service pubKey startHeight (Nat.find hex) rest _ blocks
    (hresp (Nat.find hex)).1 hevents ((scanBlocks_eq_none_iff blocks pubKey).mpr hnokey)
    (Nat.find_spec hex)]
  rfl

/-- Instance of the timeout: heights 10, 110, 210, 310 from start height 10. -/
theorem poll_times_out_at_first_exceeding_span_witness :
    ∃ n, n ≤ 5
      ∧ heightSpan ((fun j => 10 + j * 100) n) 10 > 200
      ∧ (∀ j, j < n → heightSpan ((fun j => 10 + j * 100) j) 10 ≤ 200)
      ∧ ∀ fuel, n < fuel →
          getAccountCreatedAddressWithPubKey growingChain "key" 10 fuel 0
            = some (retryCalls 10 (fun j => 10 + j * 100) 0 n
                      ++ [.latestHeight, .events 10 ((fun j => 10 + j * 100) n)],
                    .error timeoutError) :=
  poll_times_out_at_first_exceeding_span growingChain "key" 10 (fun j => 10 + j * 100) 5
    (fun _ => ⟨rfl, [], rfl, by simp [carriesKey]⟩) (by decide)

theorem pollCount_spec (d span : Nat) (hd : 1 ≤ d) :
    1 ≤ pollCount d span
    ∧ (∀ j, j < pollCount d span - 1 → span + j * d ≤ 200)
    ∧ 200 < span + (pollCount d span - 1) * d := by
  unfold pollCount
  by_cases h : span > 200
  · simp only [h, if_true]
    refine ⟨Nat.le_refl 1, fun j hj => absurd hj (by omega), by omega⟩
  · simp only [h, if_false]
    have hq : (200 - span) / d * d ≤ 200 - span := Nat.div_mul_le_self _ _
    have hr : 200 - span < d * ((200 - span) / d + 1) := Nat.lt_mul_div_succ _ (by omega)
    generalize (200 - span) / d = q at hq hr
    refine ⟨by omega, ?_, ?_⟩
    · intro j hj
      have hj1 : j ≤ q := by omega
      have hj2 : j * d ≤ q * d := Nat.mul_le_mul_right d hj1
      omega
    · have e : q + 2 - 1 = q + 1 := by omega
      rw [e, Nat.mul_comm]
      omega

/-- C9: when no event ever carries the key and the latest height is `h0 ≥ startHeight`
in the first polling iteration and grows by `d ≥ 1` per iteration (all heights up to the
last one fetched being `uint64` values), then with `N = pollCount d (h0 - startHeight)`
the poller makes exactly `N` iterations, every event fetch is made from the same
`startHeight`, the first `N-1` iterations have a span of at most 200 and end in a retry,
iteration `N` is the first whose span exceeds 200, and the timeout error is returned
there. -/
theorem C9_timeout_budget_from_start (service : Services) (pubKey : String)
    (startHeight h0 d : Nat) (fuel : Nat)
    (hd : 1 ≤ d) (hh0 : startHeight ≤ h0)
    (hfits : h0 + (pollCount d (h0 - startHeight) - 1) * d < 2 ^ 64)
    (hheights : ∀ j, service.GetLatestBlockHeight j = .ok (h0 + j * d))
    (hnokey : ∀ j lastHeight, ∃ blocks,
      service.EventsGet j startHeight lastHeight = .ok blocks ∧ ¬ carriesKey blocks pubKey)
    (hfuel : pollCount d (h0 - startHeight) ≤ fuel) :
    getAccountCreatedAddressWithPubKey service pubKey startHeight fuel 0
      = some (retryCalls startHeight (fun j => h0 + j * d) 0 (pollCount d (h0 - startHeight) - 1)
                ++ [.latestHeight,
                    .events startHeight (h0 + (pollCount d (h0 - startHeight) - 1) * d)],
              .error timeoutError)
    ∧ (∀ j, j < pollCount d (h0 - startHeight) - 1 →
        heightSpan (h0 + j * d) startHeight = h0 + j * d - startHeight
        ∧ h0 + j * d - startHeight ≤ 200)
    ∧ heightSpan (h0 + (pollCount d (h0 - startHeight) - 1) * d) startHeight
        = h0 + (pollCount d (h0 - startHeight) - 1) * d - startHeight
    ∧ 200 < h0 + (pollCount d (h0 - startHeight) - 1) * d - startHeight := by
  obtain ⟨hN, hbelow, habove⟩ := pollCount_spec d (h0 - startHeight) hd
  generalize pollCount d (h0 - startHeight) = N at hN hbelow habove hfits hfuel
  have hspan : ∀ j, j ≤ N - 1 →
      heightSpan (h0 + j * d) startHeight = h0 + j * d - startHeight := by
    intro j hj
    have hmono : j * d ≤ (N - 1) * d := Nat.mul_le_mul_right d hj
    exact heightSpan_of_le _ _ (by omega) (by omega)
  have hlast : heightSpan (h0 + (N - 1) * d) startHeight > 200 := by
    rw [hspan (N - 1) (Nat.le_refl _)]
    omega
  refine ⟨?_, ?_, hspan (N - 1) (Nat.le_refl _), by omega⟩
  · obtain ⟨rest, hrest⟩ : ∃ rest, fuel = (N - 1) + (rest + 1) := ⟨fuel - N, by omega⟩
    rw [hrest, poll_retry service pubKey startHeight (fun j => h0 + j * d) (rest + 1) (N - 1) 0
      (fun j hj => by
        rw [Nat.zero_add]
        refine ⟨hheights j, hnokey j _, ?_⟩
        show heightSpan (h0 + j * d) startHeight ≤ 200
        rw [hspan j (by omega)]
        have := hbelow j hj
        omega)]
    obtain ⟨blocks, hevents, hnone⟩ := hnokey (N - 1) (h0 + (N - 1) * d)
    rw [Nat.zero_add, poll_timeout service pubKey startHeight (N - 1) rest _ blocks
      (hheights (N - 1)) hevents ((scanBlocks_eq_none_iff blocks pubKey).mpr hnone) hlast]
    rfl
  · intro j hj
    refine ⟨hspan j (by omega), ?_⟩
    have := hbelow j hj
    omega

/-- Instance of C9: start height 10, latest heights 10, 110, 210, 310: four iterations. -/
theorem C9_timeout_budget_from_start_witness :
    pollCount 100 (10 - 10) = 4
    ∧ getAccountCreatedAddressWithPubKey growingChain "key" 10 6 0
      = some (retryCalls 10 (fun j => 10 + j * 100) 0 (pollCount 100 (10 - 10) - 1)
                ++ [.latestHeight, .events 10 (10 + (pollCount 100 (10 - 10) - 1) * 100)],
              .error timeoutError)
    ∧ (∀ j, j < pollCount 100 (10 - 10) - 1 →
        heightSpan (10 + j * 100) 10 = 10 + j * 100 - 10
        ∧ 10 + j * 100 - 10 ≤ 200)
    ∧ heightSpan (10 + (pollCount 100 (10 - 10) - 1) * 100) 10
        = 10 + (pollCount 100 (10 - 10) - 1) * 100 - 10
    ∧ 200 < 10 + (pollCount 100 (10 - 10) - 1) * 100 - 10 :=
  ⟨by decide,
   C9_timeout_budget_from_start growingChain "key" 10 10 100 6 (by decide) (by decide)
    (by decide) (fun _ => rfl) (fun _ _ => ⟨[], rfl, by simp [carriesKey]⟩) (by decide)⟩

/-! ## Theorems: `create` -/

/-- C10, as stated, fails: with 3 keys, 1 signature algorithm and 1 hash algorithm the
three counts are not equal, yet `create` fills the two algorithm lists up to the number
of keys, parses the algorithms, decodes the keys, makes the account-creation call and
returns its result. -/
theorem C10_counterexample :
    1 ≤ (["k1", "k2", "k3"] : List String).length
    ∧ ¬ ((["k1", "k2", "k3"] : List String).length = (["ECDSA_P256"] : List String).length
          ∧ (["ECDSA_P256"] : List String).length = (["SHA3_256"] : List String).length)
    ∧ agreeableEnv.AccountsByName "emulator-account" = .ok (NewAccount "emulator-account")
    ∧ create agreeableEnv
        ⟨"emulator-account", ["k1", "k2", "k3"], [], ["ECDSA_P256"], ["SHA3_256"], [], []⟩
      = ([.signerByName "emulator-account",
          .parseSigAlgo "ECDSA_P256", .parseSigAlgo "ECDSA_P256", .parseSigAlgo "ECDSA_P256",
          .parseHashAlgo "SHA3_256", .parseHashAlgo "SHA3_256", .parseHashAlgo "SHA3_256",
          .decodeKey 2 "k1", .decodeKey 2 "k2", .decodeKey 2 "k3", .chainCreate],
         .ok ⟨1, []⟩) := by
  decide

/-- C10 (amended): for every invocation of `create` with at least one key and an
existing signer in which the numbers of keys, signature algorithms and hash algorithms
are not all equal, and in which it is not the case that exactly one signature algorithm
and exactly one hash algorithm are given, `create` returns the error that names the
three counts, and the signer lookup is the only call made before it. -/
theorem C10_count_mismatch_rejected (env : CreateEnv) (flags : flagsCreate) (signer : Account)
    (hkeys : 1 ≤ flags.Keys.length)
    (hsigner : env.AccountsByName flags.Signer = .ok signer)
    (hmismatch : ¬ (flags.Keys.length = flags.SigAlgo.length
      ∧ flags.SigAlgo.length = flags.HashAlgo.length))
    (hnofill : ¬ (flags.SigAlgo.length = 1 ∧ flags.HashAlgo.length = 1)) :
    create env flags
      = ([.signerByName flags.Signer],
         .error ("must provide a signature and hash algorithm for every key provided to --key: "
            ++ toString flags.Keys.length ++ " keys, "
            ++ toString flags.SigAlgo.length ++ " signature algo, "
            ++ toString flags.HashAlgo.length ++ " hash algo")) := by
  have hk : ¬ flags.Keys.length = 0 := by omega
  have hor : flags.Keys.length ≠ flags.SigAlgo.length
      ∨ flags.SigAlgo.length ≠ flags.HashAlgo.length := by
    by_contra hcon
    push_neg at hcon
    exact hmismatch hcon
  unfold create
  simp only [hk, if_false, hsigner, hnofill, hor, if_true, countMismatchError]

/-- Instance of C10 (amended): 3 keys, 1 signature algorithm, 2 hash algorithms. -/
theorem C10_count_mismatch_rejected_witness :
    create agreeableEnv
        ⟨"emulator-account", ["k1", "k2", "k3"], [], ["ECDSA_P256"],
          ["SHA3_256", "SHA2_256"], [], []⟩
      = ([.signerByName "emulator-account"],
         .error ("must provide a signature and hash algorithm for every key provided to --key: "
            ++ toString 3 ++ " keys, " ++ toString 1 ++ " signature algo, "
            ++ toString 2 ++ " hash algo")) :=
  C10_count_mismatch_rejected agreeableEnv
    ⟨"emulator-account", ["k1", "k2", "k3"], [], ["ECDSA_P256"], ["SHA3_256", "SHA2_256"], [], []⟩
    (NewAccount "emulator-account") (by decide) rfl (by decide) (by decide)

/-! ## Theorems: the private document and its reference -/

theorem mem_Accounts_AddOrUpdate (state : List Account) (account : Account) :
    account ∈ Accounts.AddOrUpdate state account := by
  induction state with
  | nil => simp [Accounts.AddOrUpdate]
  | cons a rest ih =>
    by_cases ha : a.name = account.name
    · simp [Accounts.AddOrUpdate, ha]
    · simp [Accounts.AddOrUpdate, ha, ih]

theorem savePrivateAccount_effects (w : World) (fileName : String) (account : Account) :
    ∃ rest, (savePrivateAccount w fileName account).1
        = .savePrivate fileName [account] :: rest
      ∧ ∀ e ∈ rest, ∀ f accounts, e ≠ Effect.savePrivate f accounts := by
  have hA : Accounts.AddOrUpdate [] account = [account] := rfl
  cases hsave : w.Save fileName [account] with
  | some err =>
    exact ⟨[], by simp [savePrivateAccount, hA, hsave], by simp⟩
  | none =>
    by_cases hprompt : w.AddToGitIgnorePrompt fileName = true
    · refine ⟨.prompt fileName :: (addToGitIgnore w fileName).1,
        by simp [savePrivateAccount, hA, hsave, hprompt], ?_⟩
      intro e he f accounts
      rcases List.mem_cons.mp he with rfl | he
      · simp
      · unfold addToGitIgnore at he
        cases hwd : w.Getwd with
        | error err =>
          rw [hwd] at he
          simp at he
          subst he
          simp
        | ok wd =>
          rw [hwd] at he
          cases hopen : w.OpenFile (gitIgnorePath wd) with
          | some err =>
            simp [hopen] at he
            rcases he with rfl | rfl <;> simp
          | none =>
            cases hwrite : w.WriteString (gitIgnorePath wd) ("\n" ++ fileName) with
            | some err =>
              simp [hopen, hwrite] at he
              rcases he with rfl | rfl | rfl | rfl <;> simp
            | none =>
              simp [hopen, hwrite] at he
              rcases he with rfl | rfl | rfl | rfl <;> simp
    · refine ⟨[.prompt fileName], by simp [savePrivateAccount, hA, hsave, hprompt], ?_⟩
      intro e he f accounts
      simp at he
      subst he
      simp

theorem saveAccountToPrivateConfigFile_of_error (w : World) (state : List Account)
    (account : Account) (effects : List Effect) (err : String)
    (h : savePrivateAccount w (account.name ++ ".private.json") account = (effects, some err)) :
    saveAccountToPrivateConfigFile w state account
      = { accounts := state, effects := effects, err := some err } := by
  simp only [saveAccountToPrivateConfigFile, h]

theorem saveAccountToPrivateConfigFile_of_saved (w : World) (state : List Account)
    (account : Account) (effects : List Effect)
    (h : savePrivateAccount w (account.name ++ ".private.json") account = (effects, none)) :
    saveAccountToPrivateConfigFile w state account
      = { accounts := Accounts.AddOrUpdate state
            { name := account.name, address := none, keys := [],
              source := .fileReference (account.name ++ ".private.json") },
          effects := effects ++ [.saveDefault (Accounts.AddOrUpdate state
            { name := account.name, address := none, keys := [],
              source := .fileReference (account.name ++ ".private.json") })],
          err := w.SaveDefault (Accounts.AddOrUpdate state
            { name := account.name, address := none, keys := [],
              source := .fileReference (account.name ++ ".private.json") }) } := by
  simp only [saveAccountToPrivateConfigFile, h, NewAccount, Account.SetFromFile]
  cases w.SaveDefault (Accounts.AddOrUpdate state
      { name := account.name, address := none, keys := [],
        source := .fileReference (account.name ++ ".private.json") }) <;> rfl

/-- C11: for every account named `n` saved for a network that is not the emulator,
the first effect of `saveAccount` is the save of the private document under the file
name `n ++ ".private.json"`, no other private document is saved, and when
`saveAccount` returns no error the shared state is the old one with the record
`{name n, file reference to n ++ ".private.json"}` added or updated, so that this
record, whose path is the file name that was written, is in the shared state. -/
theorem C11_private_file_name_and_reference (w : World) (state : List Account)
    (account : Account) :
    (∃ rest, (saveAccount w state account false).effects
        = .savePrivate (account.name ++ ".private.json") [account] :: rest
      ∧ ∀ e ∈ rest, ∀ f accounts, e ≠ Effect.savePrivate f accounts)
    ∧ ((saveAccount w state account false).err = none →
        (saveAccount w state account false).accounts
          = Accounts.AddOrUpdate state
              { name := account.name, address := none, keys := [],
                source := .fileReference (account.name ++ ".private.json") }
        ∧ ({ name := account.name, address := none, keys := [],
             source := .fileReference (account.name ++ ".private.json") } : Account)
            ∈ (saveAccount w state account false).accounts) := by
  obtain ⟨rest, hrest, hnone⟩ :=
    savePrivateAccount_effects w (account.name ++ ".private.json") account
  have hsa : saveAccount w state account false
      = saveAccountToPrivateConfigFile w state account := by
    simp [saveAccount]
  rw [hsa]
  rcases hp : savePrivateAccount w (account.name ++ ".private.json") account with ⟨effects, perr⟩
  rw [hp] at hrest
  simp only at hrest
  subst hrest
  cases perr with
  | some err =>
    rw [saveAccountToPrivateConfigFile_of_error w state account _ err hp]
    exact ⟨⟨rest, rfl, hnone⟩, fun h => by simp at h⟩
  | none =>
    rw [saveAccountToPrivateConfigFile_of_saved w state account _ hp]
    refine ⟨⟨rest ++ [.saveDefault (Accounts.AddOrUpdate state
        { name := account.name, address := none, keys := [],
          source := .fileReference (account.name ++ ".private.json") })], by simp, ?_⟩,
      fun _ => ⟨rfl, mem_Accounts_AddOrUpdate _ _⟩⟩
    intro e he f accounts
    rcases List.mem_append.mp he with he | he
    · exact hnone e he f accounts
    · simp at he
      subst he
      simp

/-- C12 fails on the code: in a world where the private document is saved, the user
accepts the prompt and the write to the ignore file fails, `addToGitIgnore` returns
the error, but `savePrivateAccount` returns `nil`. -/
theorem C12_gitignore_error_dropped :
    gitIgnoreWriteFails.Save "alice.private.json" [⟨"alice", some 7, ["key"], .inline⟩] = none
    ∧ gitIgnoreWriteFails.AddToGitIgnorePrompt "alice.private.json" = true
    ∧ (addToGitIgnore gitIgnoreWriteFails "alice.private.json").2
        = some "read-only file system"
    ∧ Effect.writeString "/project/.gitignore" "\nalice.private.json"
        ∈ (savePrivateAccount gitIgnoreWriteFails "alice.private.json"
            ⟨"alice", some 7, ["key"], .inline⟩).1
    ∧ (savePrivateAccount gitIgnoreWriteFails "alice.private.json"
        ⟨"alice", some 7, ["key"], .inline⟩).2 = none := by
  decide

/-! ## Theorems: `Events.Get` -/

/-- The six runs of `TestEvents` on the model of `Events.Get`: the two successful
queries with the gateway calls the test asserts, and the four error texts. -/
theorem Events_Get_TestEvents :
    Events.Get mockGateway "flow.CreateAccount" "0" "1"
      = ([.getEvents "flow.CreateAccount" 0 1], .ok [])
    ∧ Events.Get mockGateway "flow.CreateAccount" "0" "latest"
      = ([.getLatestBlock, .getEvents "flow.CreateAccount" 0 100], .ok [])
    ∧ (Events.Get mockGateway "" "0" "1").2
      = .error "cannot use empty string as event name"
    ∧ (Events.Get mockGateway "test" "-1" "1").2
      = .error "failed to parse start height of block range: -1"
    ∧ (Events.Get mockGateway "test" "1" "-1").2
      = .error "failed to parse end height of block range: -1"
    ∧ (Events.Get mockGateway "test" "10" "5").2
      = .error "cannot have end height (5) of block range less that start height (10)" := by
  decide

/-- C13: `Events.Get(name, start, end)` fails with "cannot use empty string as event
name" when the name is empty; for a non-empty name with "failed to parse start height of
block range: <start>" when `start` is not a non-negative integer; then with "failed to
parse end height of block range: <end>" when `end` is neither `"latest"` nor a
non-negative integer; then with "cannot have end height (e) of block range less that
start height (s)" when the end height is below the start height; none of these makes a
gateway call other than the latest-block lookup.  For a valid name and range the gateway
is queried for exactly that name and range and its answer is returned, and for
`"latest"` the latest-block lookup comes first and gives the end height. -/
theorem C13_events_get_validation (gateway : Gateway) (name startText endText : String) :
    (name = "" →
      Events.Get gateway name startText endText
        = ([], .error "cannot use empty string as event name"))
    ∧ (name ≠ "" → parseHeight startText = none →
      Events.Get gateway name startText endText
        = ([], .error ("failed to parse start height of block range: " ++ startText)))
    ∧ (name ≠ "" → parseHeight startText ≠ none → endText ≠ "latest" →
        parseHeight endText = none →
      Events.Get gateway name startText endText
        = ([], .error ("failed to parse end height of block range: " ++ endText)))
    ∧ (∀ s e, name ≠ "" → parseHeight startText = some s → endText ≠ "latest" →
        parseHeight endText = some e →
      (e < s → Events.Get gateway name startText endText
        = ([], .error ("cannot have end height (" ++ toString e
            ++ ") of block range less that start height (" ++ toString s ++ ")")))
      ∧ (s ≤ e → Events.Get gateway name startText endText
        = ([.getEvents name s e], gateway.GetEvents name s e)))
    ∧ (∀ s e, name ≠ "" → parseHeight startText = some s → endText = "latest" →
        gateway.GetLatestBlock = .ok e →
      (e < s → Events.Get gateway name startText endText
        = ([.getLatestBlock], .error ("cannot have end height (" ++ toString e
            ++ ") of block range less that start height (" ++ toString s ++ ")")))
      ∧ (s ≤ e → Events.Get gateway name startText endText
        = ([.getLatestBlock, .getEvents name s e], gateway.GetEvents name s e))) := by
  refine ⟨?_, ?_, ?_, ?_, ?_⟩
  · intro hname
    simp [Events.Get, hname]
  · intro hname hstart
    simp [Events.Get, hname, hstart]
  · intro hname hstart hlatest hend
    obtain ⟨s, hs⟩ := Option.ne_none_iff_exists'.mp hstart
    simp [Events.Get, hname, hs, hlatest, hend]
  · intro s e hname hstart hlatest hend
    constructor
    · intro hlt
      simp [Events.Get, hname, hstart, hlatest, hend, hlt, rangeError]
    · intro hle
      simp [Events.Get, hname, hstart, hlatest, hend, Nat.not_lt.mpr hle]
  · intro s e hname hstart hlatest hblock
    constructor
    · intro hlt
      simp [Events.Get, hname, hstart, hlatest, hblock, hlt, rangeError]
    · intro hle
      simp [Events.Get, hname, hstart, hlatest, hblock, Nat.not_lt.mpr hle]

/-! ## Theorems: `Contracts.Remove` of a name that is present -/

theorem filter_out_split (pre post : List Contract) (x : Contract) (n : String)
    (hx : x.Name = n) (hpre : ∀ y ∈ pre, y.Name ≠ n) (hpost : ∀ y ∈ post, y.Name ≠ n) :
    (pre ++ x :: post).filter (fun y => decide (y.Name ≠ n)) = pre ++ post := by
  rw [List.filter_append, List.filter_cons_of_neg (by simp [hx])]
  rw [List.filter_eq_self.mpr (fun y hy => by simpa using hpre y hy),
    List.filter_eq_self.mpr (fun y hy => by simpa using hpost y hy)]

/-- C14: for a collection `c` with pairwise distinct names and a name `n` that a contract
of `c` carries, `c` splits as `pre ++ x :: post` with `x` the contract named `n`, and
`Remove(n)` returns `nil` without a panic, leaving exactly `pre ++ post`: one element
fewer, the others in their original order, no contract named `n` among them, and a
following `ByName(n)` returns the not-found error. -/
theorem C14_remove_present (c : Contracts) (n : String) (hc : c.names.Nodup)
    (hmem : ∃ x ∈ c, x.Name = n) :
    ∃ pre x post, c = pre ++ x :: post ∧ x.Name = n
      ∧ Contracts.Remove c n = some (pre ++ post, none)
      ∧ (pre ++ post).length + 1 = c.length
      ∧ (∀ y ∈ pre ++ post, y.Name ≠ n)
      ∧ Contracts.ByName (pre ++ post) n = .error (contractNotFound n) := by
  obtain ⟨x, hx, hxn⟩ := hmem
  obtain ⟨pre, post, hsplit⟩ := List.append_of_mem hx
  have hnd : (pre.map Contract.Name ++ x.Name :: post.map Contract.Name).Nodup := by
    have := hc
    rw [hsplit] at this
    simpa [Contracts.names] using this
  have hpre : ∀ y ∈ pre, y.Name ≠ n := by
    intro y hy hyn
    have hdis := (List.nodup_append.mp hnd).2.2
    exact hdis (List.mem_map_of_mem _ hy) (by rw [hyn, ← hxn]; exact List.mem_cons_self _ _)
  have hpost : ∀ y ∈ post, y.Name ≠ n := by
    intro y hy hyn
    have hx_nd := (List.nodup_cons.mp (List.nodup_append.mp hnd).2.1).1
    apply hx_nd
    rw [hxn, ← hyn]
    exact List.mem_map_of_mem _ hy
  have hothers : ∀ y ∈ pre ++ post, y.Name ≠ n := by
    intro y hy
    rcases List.mem_append.mp hy with h | h
    · exact hpre y h
    · exact hpost y h
  refine ⟨pre, x, post, hsplit, hxn, ?_, ?_, hothers, ByName_of_absent _ n hothers⟩
  · rw [Remove_of_nodup c n hc ⟨x, hx, hxn⟩, hsplit, filter_out_split pre post x n hxn hpre hpost]
  · rw [hsplit]
    simp
    omega

/-- Instance of C14: removing `"B"` from three contracts with distinct names. -/
theorem C14_remove_present_witness :
    ∃ pre x post,
      ([⟨"A", "a.cdc", []⟩, ⟨"B", "b.cdc", []⟩, ⟨"C", "c.cdc", []⟩] : Contracts)
        = pre ++ x :: post ∧ x.Name = "B"
      ∧ Contracts.Remove [⟨"A", "a.cdc", []⟩, ⟨"B", "b.cdc", []⟩, ⟨"C", "c.cdc", []⟩] "B"
          = some (pre ++ post, none)
      ∧ (pre ++ post).length + 1
          = ([⟨"A", "a.cdc", []⟩, ⟨"B", "b.cdc", []⟩, ⟨"C", "c.cdc", []⟩] : Contracts).length
      ∧ (∀ y ∈ pre ++ post, y.Name ≠ "B")
      ∧ Contracts.ByName (pre ++ post) "B" = .error (contractNotFound "B") :=
  C14_remove_present [⟨"A", "a.cdc", []⟩, ⟨"B", "b.cdc", []⟩, ⟨"C", "c.cdc", []⟩] "B"
    (by decide) ⟨⟨"B", "b.cdc", []⟩, by decide, rfl⟩

end FlowCli
